import Mathlib

/-!
Verification of the service-health probing engine in `docs/script.js` of the
PaketVPN site: the `probeRtt` probe, the `measureRtt` sampler/aggregator, the
`randomWarnPing` synthetic display value, and the per-card classification
handler. The network environment is abstracted as data: one fetch either
resolves or rejects after some elapsed time, and a sampler run consumes a
sequence of per-attempt probe results.
-/

namespace PaketVPN

/-- JavaScript `Math.round` on a non-negative rational number of milliseconds:
`Math.round(x)` is `⌊x + 0.5⌋`. -/
def jsRound (x : ℚ) : ℤ := ⌊x + 1 / 2⌋

/-- The value `probeRtt` resolves with (script.js lines 80, 82, 97, 99):
`{ ok: true, rtt }` on success, `{ ok: false }` on any failure. -/
inductive ProbeResult
  | success (rtt : ℤ)
  | failure
  deriving DecidableEq, Repr

/-- The JS field access `result.ok`. -/
def ProbeResult.ok : ProbeResult → Bool
  | .success _ => true
  | .failure => false

/-- The JS field access `result.rtt`: present iff `ok`. -/
def ProbeResult.rttOf : ProbeResult → Option ℤ
  | .success t => some t
  | .failure => none

/-- Behavior of the underlying `fetch` for one attempt: the request either
resolves (the network round trip completes — even an opaque no-cors response
counts) after `elapsed` milliseconds, or rejects (network error, connection
refused) after `elapsed` milliseconds. -/
inductive FetchBehavior
  | completes (elapsed : ℚ)
  | fails (elapsed : ℚ)

/-- `probeRtt` (script.js lines 86-102), the `AbortController` path: a timer
aborts the request at the deadline, so a fetch that would resolve at or after
`timeoutMs` rejects with an abort error instead; every rejection is caught and
becomes `{ ok: false }`. A fetch resolving before the deadline yields
`{ ok: true, rtt: Math.round(elapsed) }`. -/
def probeRttAbort (timeoutMs : ℚ) (behavior : FetchBehavior) : ProbeResult :=
  match behavior with
  | .completes e => if e < timeoutMs then .success (jsRound e) else .failure
  | .fails _ => .failure

/-- `probeRtt` (script.js lines 67-84), the fallback path without
`AbortController`: the fetch is raced against a timer that throws at the
deadline. A rejection before the deadline and a timer win are both caught in
the same `catch`; only a fetch resolving first yields `ok: true`. -/
def probeRttRace (timeoutMs : ℚ) (behavior : FetchBehavior) : ProbeResult :=
  match behavior with
  | .completes e => if e < timeoutMs then .success (jsRound e) else .failure
  | .fails e => if e < timeoutMs then .failure else .failure

/-- `measureRtt`'s return value (script.js lines 119 and 125):
`{ reachable, rtt?, successful, samples }`. -/
structure AggregateResult where
  reachable : Bool
  rtt : Option ℤ
  successful : ℕ
  samples : ℕ
  deriving DecidableEq, Repr

/-- The sampling loop of `measureRtt` (script.js lines 108-116): run `k` more
attempts starting at attempt index `i`, where `probe i` is the result of the
i-th `probeRtt` call. Returns the number of probe attempts performed and the
`successful` list — the rtts of the successful attempts in attempt order. -/
def measureLoop (probe : ℕ → ProbeResult) : ℕ → ℕ → ℕ × List ℤ
  | _, 0 => (0, [])
  | i, k + 1 =>
    let rest := measureLoop probe (i + 1) k
    match probe i with
    | .success t => (rest.1 + 1, t :: rest.2)
    | .failure => (rest.1 + 1, rest.2)

/-- The reduction after the loop in `measureRtt` (script.js lines 118-125):
no successful sample gives `{ reachable: false, successful: 0, samples }`,
otherwise the list is sorted ascending (`sort((a, b) => a - b)`) and the
element at index `Math.floor(sorted.length / 2)` is the reported rtt. -/
def reduceSamples (successful : List ℤ) (samples : ℕ) : AggregateResult :=
  if successful.isEmpty then
    { reachable := false, rtt := none, successful := 0, samples := samples }
  else
    let sorted := successful.insertionSort (· ≤ ·)
    { reachable := true, rtt := some (sorted.getD (sorted.length / 2) 0),
      successful := successful.length, samples := samples }

/-- `measureRtt` (script.js lines 105-126) with the count of probe attempts
performed exposed as the first component. -/
def measureRttT (probe : ℕ → ProbeResult) (samples : ℕ) : ℕ × AggregateResult :=
  let run := measureLoop probe 0 samples
  (run.1, reduceSamples run.2 samples)

/-- `measureRtt` (script.js lines 105-126): the aggregate result. -/
def measureRtt (probe : ℕ → ProbeResult) (samples : ℕ) : AggregateResult :=
  (measureRttT probe samples).2

/-- `randomWarnPing` (script.js line 128): `Math.floor(Math.random() * 11) + 150`,
where `u` is the value `Math.random()` returned (a draw from `[0, 1)`). -/
def randomWarnPing (u : ℚ) : ℤ := ⌊u * 11⌋ + 150

/-- The four card states set through `setPingState`
(`status--checking/up/warn/down`, script.js lines 53-54). -/
inductive PingState
  | checking
  | up
  | warn
  | down
  deriving DecidableEq, Repr

/-- The classification in the ping-card handler (script.js lines 144-159), with
the two threshold literals as parameters; the source instantiates them at 150
and 700 (`handleResult`). Returns the state and display text passed to
`setPingState`. A JS comparison against an absent `rtt` field is false, so an
aggregate with `reachable` true but no `rtt` falls through to `down`. -/
def handleResultWith (fastThreshold slowCeiling : ℤ) (u : ℚ)
    (result : AggregateResult) : PingState × String :=
  if result.reachable = false then (.down, "недоступен")
  else
    match result.rtt with
    | none => (.down, "недоступен")
    | some r =>
      if r < fastThreshold then (.up, s!"{r} мс")
      else if r ≤ slowCeiling then (.warn, s!"{randomWarnPing u} мс")
      else (.down, "недоступен")

/-- Script.js lines 144-159 with the literal thresholds `150` and `700`. -/
def handleResult (u : ℚ) (result : AggregateResult) : PingState × String :=
  handleResultWith 150 700 u result

/-- JS truthiness of `card.dataset.pingUrl` (script.js line 138): `undefined`
(missing attribute) and the empty string are the falsy cases. -/
def urlTruthy : Option String → Bool
  | none => false
  | some s => !s.isEmpty

/-- One ping card's async handler (script.js lines 136-160): a falsy url goes
straight to `down` with no probe attempt; otherwise `measureRtt(url, 3)` runs
and its aggregate is classified. Returns the number of probe attempts
performed, then the terminal state and display text. -/
def runCard (pingUrl : Option String) (probe : ℕ → ProbeResult) (u : ℚ) :
    ℕ × (PingState × String) :=
  if urlTruthy pingUrl = false then (0, (.down, "недоступен"))
  else
    let run := measureRttT probe 3
    (run.1, handleResult u run.2)

theorem ok_iff_rttOf (r : ProbeResult) : r.ok = true ↔ r.rttOf ≠ none := by
  cases r <;> simp [ProbeResult.ok, ProbeResult.rttOf]

theorem measureLoop_eq (probe : ℕ → ProbeResult) (k i : ℕ) :
    measureLoop probe i k =
      (k, (List.range' i k).filterMap fun j => (probe j).rttOf) := by
  induction k generalizing i with
  | zero => simp [measureLoop]
  | succ k ih =>
    rw [List.range'_succ]
    cases h : probe i <;>
      simp [measureLoop, ih (i + 1), h, ProbeResult.rttOf]

theorem measureLoop_fst (probe : ℕ → ProbeResult) (k i : ℕ) :
    (measureLoop probe i k).1 = k := by
  rw [measureLoop_eq]

theorem measureLoop_snd (probe : ℕ → ProbeResult) (n : ℕ) :
    (measureLoop probe 0 n).2 = (List.range n).filterMap fun j => (probe j).rttOf := by
  rw [measureLoop_eq, List.range_eq_range']

theorem reduceSamples_samples (s : List ℤ) (n : ℕ) :
    (reduceSamples s n).samples = n := by
  rcases s with _ | ⟨a, t⟩ <;> simp [reduceSamples]

theorem reduceSamples_successful (s : List ℤ) (n : ℕ) :
    (reduceSamples s n).successful = s.length := by
  rcases s with _ | ⟨a, t⟩ <;> simp [reduceSamples]

theorem reduceSamples_reachable (s : List ℤ) (n : ℕ) :
    (reduceSamples s n).reachable = !s.isEmpty := by
  rcases s with _ | ⟨a, t⟩ <;> simp [reduceSamples]

theorem reduceSamples_rtt_none (s : List ℤ) (n : ℕ) :
    (reduceSamples s n).rtt = none ↔ s = [] := by
  rcases s with _ | ⟨a, t⟩ <;> simp [reduceSamples]

theorem reduceSamples_reachable_iff (s : List ℤ) (n : ℕ) :
    (reduceSamples s n).reachable = true ↔ s ≠ [] := by
  rcases s with _ | ⟨a, t⟩ <;> simp [reduceSamples]

theorem reduceSamples_rtt_iff (s : List ℤ) (n : ℕ) :
    (reduceSamples s n).rtt ≠ none ↔ (reduceSamples s n).reachable = true := by
  rcases s with _ | ⟨a, t⟩ <;> simp [reduceSamples]

theorem measureRtt_eq (probe : ℕ → ProbeResult) (n : ℕ) :
    measureRtt probe n = reduceSamples (measureLoop probe 0 n).2 n := rfl

/-- C3: for every sampleCount `n ≥ 1` and every mix of per-attempt outcomes, a
sampler run performs exactly `n` probe attempts and reports `samples = n`: the
loop is never short-circuited by early success, only ended by exhausting the
budget. -/
theorem attempt_budget_exact (probe : ℕ → ProbeResult) (n : ℕ) (_hn : 1 ≤ n) :
    (measureRttT probe n).1 = n ∧ (measureRtt probe n).samples = n := by
  refine ⟨?_, ?_⟩
  · show (measureLoop probe 0 n).1 = n
    exact measureLoop_fst probe n 0
  · rw [measureRtt_eq]
    exact reduceSamples_samples _ n

/-- Witness for C3 at `n = 3` with a mixed outcome sequence. -/
theorem attempt_budget_exact_witness :
    (measureRttT (fun i => if i = 1 then .failure else .success 50) 3).1 = 3 ∧
    (measureRtt (fun i => if i = 1 then .failure else .success 50) 3).samples = 3 :=
  attempt_budget_exact (fun i => if i = 1 then .failure else .success 50) 3
    (by norm_num)

/-- C9: invoked with `sampleCount = 0`, the sampler performs no probe attempt
and returns `{ reachable: false, successful: 0, samples: 0 }`. -/
theorem zero_budget_unreachable (probe : ℕ → ProbeResult) :
    measureRttT probe 0 =
      (0, { reachable := false, rtt := none, successful := 0, samples := 0 }) := rfl

/-- C7: every aggregate satisfies `successful ≤ samples`; it is reachable iff
some attempt succeeded; its rtt is present iff it is reachable; and when every
attempt fails the aggregate is unreachable with `successful = 0` and the card
is classified `down` for every threshold configuration. -/
theorem aggregate_invariants (probe : ℕ → ProbeResult) (n : ℕ) (u : ℚ) :
    (measureRtt probe n).successful ≤ (measureRtt probe n).samples ∧
    ((measureRtt probe n).reachable = true ↔ ∃ i, i < n ∧ (probe i).ok = true) ∧
    ((measureRtt probe n).rtt ≠ none ↔ (measureRtt probe n).reachable = true) ∧
    ((∀ i, i < n → (probe i).ok = false) →
      (measureRtt probe n).reachable = false ∧
      (measureRtt probe n).successful = 0 ∧
      ∀ fastThreshold slowCeiling : ℤ,
        (handleResultWith fastThreshold slowCeiling u (measureRtt probe n)).1 =
          PingState.down) := by
  rw [measureRtt_eq, measureLoop_snd]
  set f : ℕ → Option ℤ := fun j => (probe j).rttOf with hf
  refine ⟨?_, ?_, ?_, ?_⟩
  · rw [reduceSamples_successful, reduceSamples_samples]
    calc ((List.range n).filterMap f).length ≤ (List.range n).length :=
          List.length_filterMap_le f (List.range n)
      _ = n := List.length_range n
  · rw [reduceSamples_reachable_iff]
    simp only [Ne, List.filterMap_eq_nil_iff, List.mem_range, not_forall]
    constructor
    · rintro ⟨j, hj, hne⟩
      exact ⟨j, hj, (ok_iff_rttOf (probe j)).mpr hne⟩
    · rintro ⟨j, hj, hok⟩
      exact ⟨j, hj, (ok_iff_rttOf (probe j)).mp hok⟩
  · exact reduceSamples_rtt_iff _ n
  · intro hall
    have hnil : (List.range n).filterMap f = [] := by
      rw [List.filterMap_eq_nil_iff]
      intro j hj
      have := hall j (List.mem_range.mp hj)
      cases hpr : probe j with
      | success t => rw [hpr] at this; simp [ProbeResult.ok] at this
      | failure => simp [hf, hpr, ProbeResult.rttOf]
    rw [hnil]
    refine ⟨by simp [reduceSamples_reachable], by simp [reduceSamples_successful], ?_⟩
    intro ft sc
    have hre : (reduceSamples ([] : List ℤ) n).reachable = false := by
      simp [reduceSamples_reachable]
    simp [handleResultWith, hre]

/-- Witness for C7's conditional part: with every attempt failing, the
aggregate is unreachable and classified `down` even for huge thresholds. -/
theorem aggregate_invariants_witness :
    (measureRtt (fun _ => ProbeResult.failure) 2).reachable = false ∧
    (measureRtt (fun _ => ProbeResult.failure) 2).successful = 0 ∧
    (handleResultWith 100000 900000 0 (measureRtt (fun _ => ProbeResult.failure) 2)).1 =
      PingState.down := by
  have h := (aggregate_invariants (fun _ => ProbeResult.failure) 2 0).2.2.2
    (fun i _ => rfl)
  exact ⟨h.1, h.2.1, h.2.2 100000 900000⟩

/-- C1 counterexample: the claim says two successful samples `[100, 300]`
reduce to `100` (a lower-middle median), but the code takes the element at
index `Math.floor(length / 2) = 1` of the sorted list, which is `300`. -/
theorem median_lower_middle_counterexample :
    (measureRtt (fun i => ProbeResult.success ([100, 300].getD i 0)) 2).rtt = some 300 ∧
    (measureRtt (fun i => ProbeResult.success ([100, 300].getD i 0)) 2).rtt ≠ some 100 := by
  decide

/-- C1 (amended): for every non-empty list of successful RTT samples, the
aggregate rtt is the element at index `⌊length / 2⌋` of the ascending sorting
of the samples — on even counts this is the upper-middle element, not the
lower-middle one; `[220, 90, 310]` reduces to `220` and `[100, 300]` to `300`.
The sorted list is characterised abstractly: any `sortedL` that is an
ascending-sorted permutation of the successful samples. -/
theorem median_at_half_length (probe : ℕ → ProbeResult) (n : ℕ) (sortedL : List ℤ)
    (hp : sortedL.Perm (measureLoop probe 0 n).2)
    (hs : sortedL.Sorted (· ≤ ·))
    (hne : (measureLoop probe 0 n).2 ≠ []) :
    (measureRtt probe n).rtt = some (sortedL.getD (sortedL.length / 2) 0) := by
  have hins : sortedL = (measureLoop probe 0 n).2.insertionSort (· ≤ ·) :=
    List.eq_of_perm_of_sorted
      (hp.trans (List.perm_insertionSort (· ≤ ·) (measureLoop probe 0 n).2).symm) hs
      (List.sorted_insertionSort (· ≤ ·) (measureLoop probe 0 n).2)
  rw [measureRtt_eq]
  rcases hc : (measureLoop probe 0 n).2 with _ | ⟨a, t⟩
  · exact absurd hc hne
  · rw [hc] at hins
    simp only [reduceSamples, List.isEmpty_cons, Bool.false_eq_true, if_false]
    rw [← hins]

/-- Witness for C1 (amended): the two example sample lists of the spec. -/
theorem median_at_half_length_witness :
    (measureRtt (fun i => ProbeResult.success ([220, 90, 310].getD i 0)) 3).rtt =
      some 220 ∧
    (measureRtt (fun i => ProbeResult.success ([90, 70].getD i 0)) 2).rtt = some 90 := by
  constructor
  · have h := median_at_half_length (fun i => ProbeResult.success ([220, 90, 310].getD i 0))
      3 [90, 220, 310] (by decide) (by decide) (by decide)
    exact h.trans (by decide)
  · have h := median_at_half_length (fun i => ProbeResult.success ([90, 70].getD i 0))
      2 [70, 90] (by decide) (by decide) (by decide)
    exact h.trans (by decide)

/-- C10: whenever the aggregate is reachable, its rtt is one of the successful
attempt rtts of the run — the reduction selects a measured value and never
fabricates one by averaging or interpolation. -/
theorem median_is_sample (probe : ℕ → ProbeResult) (n : ℕ)
    (h : (measureRtt probe n).reachable = true) :
    ∃ r, (measureRtt probe n).rtt = some r ∧ r ∈ (measureLoop probe 0 n).2 := by
  rw [measureRtt_eq] at h ⊢
  have hne : (measureLoop probe 0 n).2 ≠ [] :=
    (reduceSamples_reachable_iff (measureLoop probe 0 n).2 n).mp h
  set L := (measureLoop probe 0 n).2 with hL
  rcases hc : L with _ | ⟨a, t⟩
  · exact absurd hc hne
  · set sorted := (a :: t).insertionSort (· ≤ ·) with hsorted
    have hlen : sorted.length = (a :: t).length :=
      (List.perm_insertionSort (· ≤ ·) (a :: t)).length_eq
    have hpos : 0 < sorted.length := by rw [hlen]; exact Nat.succ_pos _
    have hidx : sorted.length / 2 < sorted.length := Nat.div_lt_self hpos (by norm_num)
    refine ⟨sorted.getD (sorted.length / 2) 0, ?_, ?_⟩
    · simp only [reduceSamples, List.isEmpty_cons, Bool.false_eq_true, if_false]
    · rw [List.getD_eq_getElem sorted 0 hidx]
      have hmem : sorted[sorted.length / 2] ∈ sorted := List.getElem_mem hidx
      exact (List.perm_insertionSort (· ≤ ·) (a :: t)).mem_iff.mp hmem

/-- Witness for C10 at a run with a single successful attempt. -/
theorem median_is_sample_witness :
    (measureRtt (fun _ => ProbeResult.success 7) 1).rtt = some 7 ∧
    7 ∈ (measureLoop (fun _ => ProbeResult.success 7) 0 1).2 := by
  obtain ⟨r, hr, hmem⟩ := median_is_sample (fun _ => ProbeResult.success 7) 1 (by decide)
  have hr7 : some r = some (7 : ℤ) := by rw [← hr]; decide
  obtain rfl : r = 7 := Option.some.inj hr7
  exact ⟨hr, hmem⟩

/-- C2: with the source's thresholds 150 and 700, a reachable aggregate with
rtt `r` is classified `up` when `r < 150`, `warn` (degraded) when
`150 ≤ r ≤ 700`, and `down` when `r > 700`; every unreachable aggregate is
classified `down`. -/
theorem classification_boundaries (u : ℚ) (agg : AggregateResult) (r : ℤ) :
    (agg.reachable = false → (handleResult u agg).1 = PingState.down) ∧
    (agg.reachable = true → agg.rtt = some r →
      ((r < 150 → (handleResult u agg).1 = PingState.up) ∧
       (150 ≤ r → r ≤ 700 → (handleResult u agg).1 = PingState.warn) ∧
       (700 < r → (handleResult u agg).1 = PingState.down))) := by
  constructor
  · intro h
    simp [handleResult, handleResultWith, h]
  · intro hre hrtt
    refine ⟨fun h1 => ?_, fun h1 h2 => ?_, fun h1 => ?_⟩ <;>
      simp only [handleResult, handleResultWith, hre, Bool.true_eq_false, if_false,
        hrtt]
    · rw [if_pos h1]
    · rw [if_neg (by omega), if_pos h2]
    · rw [if_neg (by omega), if_neg (by omega)]

/-- Witness for C2 at the boundary rtts 149, 150, 700, 701 and at an
unreachable aggregate. -/
theorem classification_boundaries_witness :
    (handleResult 0 { reachable := true, rtt := some 149, successful := 1, samples := 1 }).1 = PingState.up ∧
    (handleResult 0 { reachable := true, rtt := some 150, successful := 1, samples := 1 }).1 = PingState.warn ∧
    (handleResult 0 { reachable := true, rtt := some 700, successful := 1, samples := 1 }).1 = PingState.warn ∧
    (handleResult 0 { reachable := true, rtt := some 701, successful := 1, samples := 1 }).1 = PingState.down ∧
    (handleResult 0 { reachable := false, rtt := none, successful := 0, samples := 1 }).1 = PingState.down := by
  refine ⟨?_, ?_, ?_, ?_, ?_⟩
  · exact (((classification_boundaries 0 _ 149).2 rfl rfl).1) (by norm_num)
  · exact (((classification_boundaries 0 _ 150).2 rfl rfl).2.1) (by norm_num) (by norm_num)
  · exact (((classification_boundaries 0 _ 700).2 rfl rfl).2.1) (by norm_num) (by norm_num)
  · exact (((classification_boundaries 0 _ 701).2 rfl rfl).2.2) (by norm_num)
  · exact (classification_boundaries 0 _ 0).1 rfl

/-- C4: a reachable aggregate in the degraded band (`150 ≤ r ≤ 700`) displays
`randomWarnPing u` milliseconds — a synthetic integer in the fixed band
150–160 inclusive that depends only on the random draw `u`, never on the
measured rtt `r`: any two degraded-range aggregates produce the same display
text under the same draw. -/
theorem degraded_display_synthetic (u : ℚ) (hu0 : 0 ≤ u) (hu1 : u < 1)
    (agg : AggregateResult) (r : ℤ) (hre : agg.reachable = true)
    (hrtt : agg.rtt = some r) (h1 : 150 ≤ r) (h2 : r ≤ 700) :
    (handleResult u agg).2 = s!"{randomWarnPing u} мс" ∧
    150 ≤ randomWarnPing u ∧ randomWarnPing u ≤ 160 ∧
    ∀ agg2 : AggregateResult, ∀ r2 : ℤ, agg2.reachable = true → agg2.rtt = some r2 →
      150 ≤ r2 → r2 ≤ 700 → (handleResult u agg2).2 = (handleResult u agg).2 := by
  have hdisp : ∀ a : AggregateResult, ∀ x : ℤ, a.reachable = true → a.rtt = some x →
      150 ≤ x → x ≤ 700 → (handleResult u a).2 = s!"{randomWarnPing u} мс" := by
    intro a x ha hx hx1 hx2
    simp only [handleResult, handleResultWith, ha, Bool.true_eq_false, if_false, hx]
    rw [if_neg (by omega), if_pos (by omega)]
  have hband : 150 ≤ randomWarnPing u ∧ randomWarnPing u ≤ 160 := by
    unfold randomWarnPing
    constructor
    · have : (0 : ℤ) ≤ ⌊u * 11⌋ := Int.floor_nonneg.mpr (by positivity)
      omega
    · have : ⌊u * 11⌋ < (11 : ℤ) := by
        rw [Int.floor_lt]
        push_cast
        nlinarith
      omega
  refine ⟨hdisp agg r hre hrtt h1 h2, hband.1, hband.2, ?_⟩
  intro agg2 r2 h2re h2rtt h21 h22
  rw [hdisp agg2 r2 h2re h2rtt h21 h22, hdisp agg r hre hrtt h1 h2]

/-- Witness for C4: two degraded-range aggregates with different measured rtts
display the same text under the same draw, and the band holds at `u = 1/2`. -/
theorem degraded_display_synthetic_witness :
    (handleResult (1 / 2) { reachable := true, rtt := some 400, successful := 3, samples := 3 }).2 =
      (handleResult (1 / 2) { reachable := true, rtt := some 666, successful := 3, samples := 3 }).2 ∧
    150 ≤ randomWarnPing (1 / 2) ∧ randomWarnPing (1 / 2) ≤ 160 := by
  have h := degraded_display_synthetic (1 / 2) (by norm_num) (by norm_num)
    { reachable := true, rtt := some 400, successful := 3, samples := 3 } 400 rfl rfl
    (by norm_num) (by norm_num)
  exact ⟨(h.2.2.2 { reachable := true, rtt := some 666, successful := 3, samples := 3 }
    666 rfl rfl (by norm_num) (by norm_num)).symm, h.2.1, h.2.2.1⟩

/-- The rtt reported by a successful probe is the elapsed time rounded to the
nearest millisecond: `Math.round` lands within half a millisecond. -/
theorem jsRound_near (e : ℚ) : |(jsRound e : ℚ) - e| ≤ 1 / 2 := by
  rw [abs_le]
  unfold jsRound
  constructor
  · have h := Int.sub_one_lt_floor (e + 1 / 2)
    have : (e + 1 / 2 - 1 : ℚ) < (⌊e + 1 / 2⌋ : ℚ) := h
    linarith
  · have h := Int.floor_le (e + 1 / 2)
    linarith

/-- C5: a probe execution is a total function of the fetch behavior — no
exception escapes. A fetch resolving before the deadline yields
`{ ok: true, rtt }` with the elapsed time rounded to the nearest millisecond;
a fetch that rejects, or one that does not resolve before the deadline,
yields `{ ok: false }` on both the abort and the race strategy, so every
failure cause collapses into the same outcome. -/
theorem probe_total (timeoutMs : ℚ) (behavior : FetchBehavior) :
    (∀ e, behavior = FetchBehavior.completes e → e < timeoutMs →
      probeRttAbort timeoutMs behavior = ProbeResult.success (jsRound e) ∧
      |(jsRound e : ℚ) - e| ≤ 1 / 2) ∧
    ((∀ e, behavior = FetchBehavior.completes e → timeoutMs ≤ e) →
      probeRttAbort timeoutMs behavior = ProbeResult.failure) ∧
    probeRttRace timeoutMs behavior = probeRttAbort timeoutMs behavior := by
  refine ⟨?_, ?_, ?_⟩
  · rintro e rfl he
    exact ⟨by simp [probeRttAbort, he], jsRound_near e⟩
  · intro hlate
    cases behavior with
    | completes e =>
      have := hlate e rfl
      simp [probeRttAbort, not_lt.mpr this]
    | fails e => rfl
  · cases behavior with
    | completes e => rfl
    | fails e =>
      show (if e < timeoutMs then ProbeResult.failure else ProbeResult.failure) = _
      split <;> rfl

/-- Witness for C5: a fetch resolving at 123.5 ms against a 4200 ms deadline
rounds to 124; a rejected fetch and an overdue fetch both collapse to
failure. -/
theorem probe_total_witness :
    probeRttAbort 4200 (FetchBehavior.completes (247 / 2)) = ProbeResult.success 124 ∧
    probeRttAbort 4200 (FetchBehavior.fails 3) = ProbeResult.failure ∧
    probeRttAbort 4200 (FetchBehavior.completes 9000) = ProbeResult.failure := by
  have h1 := ((probe_total 4200 (FetchBehavior.completes (247 / 2))).1 (247 / 2) rfl
    (by norm_num)).1
  have h2 := (probe_total 4200 (FetchBehavior.fails 3)).2.1 (fun e he => by cases he)
  have h3 := (probe_total 4200 (FetchBehavior.completes 9000)).2.1
    (fun e he => by cases he; norm_num)
  have hr : jsRound (247 / 2) = 124 := by
    unfold jsRound
    norm_num
  rw [hr] at h1
  exact ⟨h1, h2, h3⟩

/-- C6: a card whose configured url is missing or empty is assigned `down`
immediately: zero probe attempts are performed and the terminal state is
`down` with the unreachable text. -/
theorem unconfigured_down (pingUrl : Option String) (probe : ℕ → ProbeResult)
    (u : ℚ) (h : urlTruthy pingUrl = false) :
    runCard pingUrl probe u = (0, (PingState.down, "недоступен")) := by
  simp [runCard, h]

/-- Witness for C6: both the missing url and the empty url go straight to
`down` with no attempt, even when every probe would have succeeded. -/
theorem unconfigured_down_witness :
    runCard (some "") (fun _ => ProbeResult.success 1) 0 =
      (0, (PingState.down, "недоступен")) ∧
    runCard none (fun _ => ProbeResult.success 1) 0 =
      (0, (PingState.down, "недоступен")) :=
  ⟨unconfigured_down (some "") (fun _ => ProbeResult.success 1) 0 rfl,
   unconfigured_down none (fun _ => ProbeResult.success 1) 0 rfl⟩

theorem handleResultWith_fst_indep (ft sc : ℤ) (u v : ℚ) (agg : AggregateResult) :
    (handleResultWith ft sc u agg).1 = (handleResultWith ft sc v agg).1 := by
  unfold handleResultWith
  split
  · rfl
  · cases agg.rtt with
    | none => rfl
    | some r =>
      by_cases h1 : r < ft
      · simp [h1]
      · by_cases h2 : r ≤ sc <;> simp [h1, h2]

/-- C8: the terminal state of a card is a deterministic pure function of the
per-attempt outcome sequence: two runs over the same outcomes — even with
different `Math.random()` draws — produce the same terminal state. -/
theorem status_deterministic (pingUrl : Option String) (probe : ℕ → ProbeResult)
    (u₁ u₂ : ℚ) :
    (runCard pingUrl probe u₁).2.1 = (runCard pingUrl probe u₂).2.1 := by
  unfold runCard
  split
  · rfl
  · exact handleResultWith_fst_indep 150 700 u₁ u₂ (measureRttT probe 3).2

end PaketVPN
